import Mathlib

/-!
# Client-side scripts of the homepage / résumé site

Shallow embedding of the three browser scripts

* `site/cn/cv/app.js`  : date stamp, tap-to-copy click handler, `toast`
* `site/cn/script.js`  : external link hardening
* `site/cv/main.js`    : language toggle

The browser objects the scripts talk to (document, clipboard, timers,
`window.location`) are modelled as explicit state: every call the scripts make
on them is recorded in a field of the page state, so that "what the handler
did" is a property of the state it returns.

JavaScript strings are modelled by `String`; the only string primitives the
scripts use are `toString` on integers, `padStart`, `trim`, `startsWith` and
concatenation.
-/

namespace Site

/-! ## JavaScript string primitives -/

/-- The method `Number.prototype.toString()` on an integer value: decimal digits, with a
leading minus sign for negative values. -/
def jsIntToString : Int → String
  | Int.ofNat n => Nat.repr n
  | Int.negSucc n => "-" ++ Nat.repr (n + 1)

/-- The filler of `padStart`: `fill` repeated `k` times. -/
def repeatFill (fill : List Char) : Nat → List Char
  | 0 => []
  | k + 1 => fill ++ repeatFill fill k

/-- The method `String.prototype.padStart(targetLength, fill)`: when the string is shorter
than `targetLength` (and the filler is not empty), the filler is repeated and
truncated to the missing length and put in front. -/
def padStart (s : String) (targetLength : Nat) (fill : String) : String :=
  if targetLength ≤ s.length then s
  else if fill.length = 0 then s
  else
    String.mk ((repeatFill fill.data (targetLength - s.length)).take
      (targetLength - s.length)) ++ s

/-- The method `String.prototype.startsWith(p)`. -/
def startsWith (s p : String) : Bool := p.data.isPrefixOf s.data

/-- White space and line terminators, the characters `trim` strips. -/
def isJsSpace (c : Char) : Bool :=
  [9, 10, 11, 12, 13, 32, 160, 5760, 8232, 8233, 8239, 8287, 12288, 65279].contains c.toNat
    || (8192 ≤ c.toNat && c.toNat ≤ 8202)

/-- The method `String.prototype.trim()`. -/
def trim (s : String) : String :=
  String.mk ((s.data.dropWhile isJsSpace).reverse.dropWhile isJsSpace).reverse

/-- JavaScript truthiness of the value of `x?.startsWith(..)`: `undefined`
(here `none`) and `false` are falsy. -/
def truthy : Option Bool → Bool
  | some b => b
  | none => false

/-! ## `site/cn/cv/app.js` -/

/-- The three getters the date stamp reads from `new Date()`. -/
structure LocalDate where
  /-- Result of `getFullYear()`. -/
  fullYear : Int
  /-- Result of `getMonth()`, `0` for January. -/
  month : Nat
  /-- Result of `getDate()`, the day of the month. -/
  date : Nat
deriving DecidableEq, Repr

/-- An `<a>` element as the click handler sees it. -/
structure Anchor where
  /-- Result of `getAttribute('href')`, `none` when the attribute is missing. -/
  hrefAttr : Option String
  /-- The `href` property: the resolved address the browser navigates to. -/
  href : String
  /-- The `textContent` property. -/
  textContent : String
deriving DecidableEq, Repr

/-- The two closures the script hands to `setTimeout`. -/
inductive TimerAction where
  /-- The closure `() => t.remove()` for the toast element with this identity. -/
  | removeToast (id : Nat)
  /-- The closure `() => { window.location.href = a.href; }` for this anchor. -/
  | navigate (a : Anchor)
deriving DecidableEq, Repr

/-- A pending timer: the closure and the clock value at which it is due. -/
structure Timer where
  fireAt : Nat
  action : TimerAction
deriving DecidableEq, Repr

/-- The inline style `toast` assigns with `Object.assign(t.style, ..)`. -/
def toastStyle : List (String × String) :=
  [("position", "fixed"), ("left", "50%"), ("bottom", "28px"),
   ("transform", "translateX(-50%)"), ("background", "rgba(0,0,0,.7)"),
   ("color", "#fff"), ("padding", "10px 14px"), ("borderRadius", "10px"),
   ("fontSize", "14px"), ("zIndex", "9999"), ("backdropFilter", "blur(6px)")]

/-- A `<div>` made by `toast`. `id` stands for the identity of the DOM node;
`createdAt` records the clock value at creation and is read by no operation. -/
structure ToastEl where
  id : Nat
  textContent : String
  style : List (String × String)
  createdAt : Nat
deriving DecidableEq, Repr

/-- The part of the browser state `app.js` reads or writes. Time is a logical
clock in milliseconds. -/
structure Page where
  /-- The clock, in milliseconds. -/
  now : Nat
  /-- Text of the element with id `last-updated`; `none` when there is no such
  element. -/
  lastUpdated : Option String
  /-- Whether `document.body` is an element (it is `null` otherwise). -/
  hasBody : Bool
  /-- The toast elements currently attached to `document.body`, in order. -/
  bodyToasts : List ToastEl
  /-- Next fresh node identity. -/
  nextId : Nat
  /-- Pending timers, in the order `setTimeout` was called. -/
  timers : List Timer
  /-- Arguments of the calls of `navigator.clipboard.writeText`, oldest first. -/
  clipboardWrites : List String
  /-- Assignments to `window.location.href`: clock value and address. -/
  navigations : List (Nat × String)
  /-- Record of every toast element appended so far (history, never read). -/
  created : List ToastEl
  /-- Record of every executed `t.remove()`: node identity and clock value
  (history, never read). -/
  removals : List (Nat × Nat)
deriving DecidableEq, Repr

/-- Whether a statement completed or threw. -/
inductive Completion where
  | normal
  | thrown
deriving DecidableEq, Repr

/-- The arrow function `const pad = (n)=> n.toString().padStart(2,'0')`. -/
def pad (n : Nat) : String := padStart (Nat.repr n) 2 "0"

/-- The template literal
`${d.getFullYear()}.${pad(d.getMonth()+1)}.${pad(d.getDate())}`. -/
def ts (d : LocalDate) : String :=
  jsIntToString d.fullYear ++ "." ++ pad (d.month + 1) ++ "." ++ pad d.date

/-- The date stamp function run at load: nothing happens when the element
`last-updated` is missing, otherwise its text becomes `ts d`. Nothing in the
`try` block can throw, so the `catch` is never entered. -/
def dateStamp (d : LocalDate) (s : Page) : Page :=
  match s.lastUpdated with
  | none => s
  | some _ => { s with lastUpdated := some (ts d) }

/-- The call `setTimeout(action, delay)`. -/
def setTimeout (action : TimerAction) (delay : Nat) (s : Page) : Page :=
  { s with timers := s.timers ++ [{ fireAt := s.now + delay, action := action }] }

/-- The function `toast(msg)`. The element is created and styled first;
`document.body.appendChild(t)` throws a `TypeError` when `document.body` is
`null`, in which case the detached element is lost and no timer is set. -/
def toast (msg : String) (s : Page) : Completion × Page :=
  let t : ToastEl :=
    { id := s.nextId, textContent := msg, style := toastStyle, createdAt := s.now }
  let s1 := { s with nextId := s.nextId + 1 }
  if s1.hasBody then
    (Completion.normal,
      setTimeout (TimerAction.removeToast t.id) 1600
        { s1 with bodyToasts := s1.bodyToasts ++ [t], created := s1.created ++ [t] })
  else (Completion.thrown, s1)

/-- How `await navigator.clipboard.writeText(text)` ends. -/
inductive ClipOutcome where
  /-- The promise is fulfilled. -/
  | resolved
  /-- The promise is rejected (for instance no permission). -/
  | rejected
  /-- The `navigator.clipboard` object is `undefined` (no secure context), so
  the member access throws before any write is attempted. -/
  | unavailable
deriving DecidableEq, Repr

/-- The statement `await navigator.clipboard.writeText(text)`. -/
def writeText (text : String) (o : ClipOutcome) (s : Page) : Completion × Page :=
  match o with
  | ClipOutcome.unavailable => (Completion.thrown, s)
  | ClipOutcome.resolved =>
    (Completion.normal, { s with clipboardWrites := s.clipboardWrites ++ [text] })
  | ClipOutcome.rejected =>
    (Completion.thrown, { s with clipboardWrites := s.clipboardWrites ++ [text] })

/-- The assignment `window.location.href = url`. -/
def assignLocation (url : String) (s : Page) : Page :=
  { s with navigations := s.navigations ++ [(s.now, url)] }

/-- A click event as the handler sees it. -/
structure ClickEvent where
  /-- Result of `e.target.closest('a')`. -/
  closestAnchor : Option Anchor
  /-- Whether `preventDefault()` has been called on the event. -/
  defaultPrevented : Bool
deriving DecidableEq, Repr

/-- The `try` block of the click handler. Effects made before a throw stay. -/
def tryBlock (a : Anchor) (text : String) (o : ClipOutcome) (s : Page) :
    Completion × Page :=
  match writeText text o s with
  | (Completion.thrown, s1) => (Completion.thrown, s1)
  | (Completion.normal, s1) =>
    match toast ("已复制：" ++ text) s1 with
    | (Completion.thrown, s2) => (Completion.thrown, s2)
    | (Completion.normal, s2) =>
      (Completion.normal, setTimeout (TimerAction.navigate a) 1500 s2)

/-- The value of `a.getAttribute('href')?.startsWith('tel:')`. -/
def isTel (a : Anchor) : Option Bool := a.hrefAttr.map (fun h => startsWith h "tel:")

/-- The value of `a.getAttribute('href')?.startsWith('mailto:')`. -/
def isMail (a : Anchor) : Option Bool := a.hrefAttr.map (fun h => startsWith h "mailto:")

/-- The document-level click listener. The result is how the handler's promise
settles (`thrown` is a rejection), the event, and the page. The handler is run
as one step: the clock value of the page it is given is the moment the awaited
clipboard write settles, which is when the toast is made, the timer is set or
the location is assigned. -/
def onClick (e : ClickEvent) (o : ClipOutcome) (s : Page) :
    Completion × ClickEvent × Page :=
  match e.closestAnchor with
  | none => (Completion.normal, e, s)
  | some a =>
    if !truthy (isTel a) && !truthy (isMail a) then (Completion.normal, e, s)
    else
      let e1 := { e with defaultPrevented := true }
      let text := if truthy (isTel a) then trim a.textContent else trim a.textContent
      match tryBlock a text o s with
      | (Completion.normal, s1) => (Completion.normal, e1, s1)
      | (Completion.thrown, s1) => (Completion.normal, e1, assignLocation a.href s1)

/-- Running the closure of a timer that is due. `t.remove()` detaches the node
with that identity if it is attached and does nothing otherwise. -/
def runCallback (s : Page) (t : Timer) : Page :=
  match t.action with
  | TimerAction.removeToast id =>
    { s with
      bodyToasts := s.bodyToasts.filter (fun e => e.id != id),
      removals := s.removals ++ [(id, s.now)] }
  | TimerAction.navigate a => assignLocation a.href s

/-- One millisecond passes: the clock moves on and every timer that is now due
runs, in the order the timers were set; the others stay pending. -/
def tick (s : Page) : Page :=
  let s1 := { s with now := s.now + 1 }
  let due := s1.timers.filter (fun t => decide (t.fireAt ≤ s1.now))
  let rest := s1.timers.filter (fun t => !decide (t.fireAt ≤ s1.now))
  due.foldl runCallback { s1 with timers := rest }

/-- What can happen on the page. -/
inductive Ev where
  /-- One millisecond passes. -/
  | tick
  /-- The script calls `toast(msg)`. -/
  | callToast (msg : String)
  /-- A click reaches the document listener; the clipboard ends as given. -/
  | click (e : ClickEvent) (o : ClipOutcome)
deriving DecidableEq, Repr

/-- One event. -/
def step (s : Page) : Ev → Page
  | Ev.tick => tick s
  | Ev.callToast msg => (toast msg s).2
  | Ev.click e o => (onClick e o s).2.2

/-- A sequence of events, oldest first. -/
def run (evs : List Ev) (s : Page) : Page := evs.foldl step s

/-- A page on which the script has not yet made a toast or set a timer. -/
def Page.fresh (now : Nat) (lastUpdated : Option String) (hasBody : Bool) : Page :=
  { now := now, lastUpdated := lastUpdated, hasBody := hasBody, bodyToasts := [],
    nextId := 0, timers := [], clipboardWrites := [], navigations := [],
    created := [], removals := [] }

/-! ## `site/cn/script.js` -/

/-- The interface of an element the type selector `a` matches. -/
inductive AnchorKind where
  /-- An HTML `<a>` (`HTMLAnchorElement`): its properties `target` and `rel`
  reflect the attributes of the same names. -/
  | html
  /-- An SVG `<a>` (`SVGAElement`): its `target` is a read-only animated string
  and `rel` does not reflect the attribute, so an assignment to either property
  in this (non-strict) script leaves the attributes as they are. -/
  | svg
deriving DecidableEq, Repr

/-- An `<a>` element as the hardening pass sees it. An attribute that is not
set is `none`. -/
structure LinkEl where
  /-- Whether the element is an HTML or an SVG anchor. -/
  kind : AnchorKind
  /-- The `href` attribute. -/
  hrefAttr : Option String
  /-- The `target` attribute. -/
  target : Option String
  /-- The `rel` attribute. -/
  rel : Option String
deriving DecidableEq, Repr

/-- The attribute selector `[href^="http"]`: the attribute is present and its
value begins with the four characters `http`. -/
def hrefBeginsHttp (a : LinkEl) : Bool :=
  match a.hrefAttr with
  | some h => startsWith h "http"
  | none => false

/-- The call `document.querySelectorAll('a[href^="http"]')` on the anchors of the
document (in document order): the positions of the matching anchors. -/
def links (doc : List LinkEl) : List Nat :=
  (List.range doc.length).filter (fun i =>
    match doc[i]? with
    | some a => hrefBeginsHttp a
    | none => false)

/-- Assignment to a property of the anchor at position `i`. -/
def updateAt (f : LinkEl → LinkEl) : Nat → List LinkEl → List LinkEl
  | _, [] => []
  | 0, a :: rest => f a :: rest
  | i + 1, a :: rest => a :: updateAt f i rest

/-- The assignment `link.target = v`: it sets the attribute of an HTML anchor
and is without effect on an SVG anchor. -/
def assignTarget (v : String) (a : LinkEl) : LinkEl :=
  match a.kind with
  | AnchorKind.html => { a with target := some v }
  | AnchorKind.svg => a

/-- The assignment `link.rel = v`: it sets the attribute of an HTML anchor and
is without effect on the attribute of an SVG anchor. -/
def assignRel (v : String) (a : LinkEl) : LinkEl :=
  match a.kind with
  | AnchorKind.html => { a with rel := some v }
  | AnchorKind.svg => a

/-- The body of the `for` loop: `link.target = "_blank"` and then
`link.rel = "noopener noreferrer"`. -/
def hardenLink (doc : List LinkEl) (i : Nat) : List LinkEl :=
  updateAt (assignRel "noopener noreferrer") i (updateAt (assignTarget "_blank") i doc)

/-- The whole script: the loop over `links`. -/
def hardenLinks (doc : List LinkEl) : List LinkEl :=
  (links doc).foldl hardenLink doc

/-! ## `site/cv/main.js` -/

/-- The constant `zhUrl`. -/
def zhUrl : String := "https://cv.whynotcloud.ltd/cn/index.html"

/-- The click listeners this script can register: the only one is
`() => { window.location.href = url; }`. -/
inductive Listener where
  | setLocation (url : String)
deriving DecidableEq, Repr

/-- The part of the browser state `main.js` reads or writes. -/
structure MainPage where
  /-- Whether the document has an element with id `lang-toggle`. -/
  hasLangToggle : Bool
  /-- Click listeners registered on that element, in registration order. -/
  toggleListeners : List Listener
  /-- Assignments to `window.location.href`, oldest first. -/
  navigations : List String
deriving DecidableEq, Repr

/-- The `DOMContentLoaded` listener. -/
def onDOMContentLoaded (s : MainPage) : MainPage :=
  if s.hasLangToggle then
    { s with toggleListeners := s.toggleListeners ++ [Listener.setLocation zhUrl] }
  else s

/-- Running one registered click listener. -/
def runListener (s : MainPage) : Listener → MainPage
  | Listener.setLocation url => { s with navigations := s.navigations ++ [url] }

/-- A click on the element `lang-toggle`: its listeners run in order. Without
such an element there is nothing to click. -/
def clickLangToggle (s : MainPage) : MainPage :=
  if s.hasLangToggle then s.toggleListeners.foldl runListener s else s

/-- What can happen on the page of `main.js`. -/
inductive MainEv where
  | domContentLoaded
  | clickToggle
deriving DecidableEq, Repr

/-- One event. -/
def mainStep (s : MainPage) : MainEv → MainPage
  | MainEv.domContentLoaded => onDOMContentLoaded s
  | MainEv.clickToggle => clickLangToggle s

/-- A sequence of events, oldest first. -/
def mainRun (evs : List MainEv) (s : MainPage) : MainPage := evs.foldl mainStep s

/-! ## Reference forms used in the statements -/

/-- A number below one hundred written as exactly two decimal digits. -/
def twoDigits (n : Nat) : String :=
  String.mk [Nat.digitChar (n / 10), Nat.digitChar (n % 10)]

/-- A number below ten thousand written as exactly four decimal digits. -/
def fourDigits (n : Nat) : String :=
  String.mk [Nat.digitChar (n / 1000), Nat.digitChar (n / 100 % 10),
    Nat.digitChar (n / 10 % 10), Nat.digitChar (n % 10)]

/-- The href attribute begins with `tel:` or with `mailto:`. -/
def isContact (a : Anchor) : Prop :=
  ∃ h, a.hrefAttr = some h ∧ (startsWith h "tel:" = true ∨ startsWith h "mailto:" = true)

/-- An anchor after both assignments of the loop body. -/
def hardened (a : LinkEl) : LinkEl :=
  assignRel "noopener noreferrer" (assignTarget "_blank" a)

/-- The pending timers whose closure assigns `window.location.href`. -/
def navigateTimers (s : Page) : List Timer :=
  s.timers.filter (fun t =>
    match t.action with
    | TimerAction.navigate _ => true
    | TimerAction.removeToast _ => false)

/-- The pending timers whose closure removes the node `id`. -/
def timersFor (id : Nat) (ts : List Timer) : List Timer :=
  ts.filter (fun tm => tm.action == TimerAction.removeToast id)

/-- The executed removals of the node `id`. -/
def removalsOf (id : Nat) (rs : List (Nat × Nat)) : List (Nat × Nat) :=
  rs.filter (fun r => r.1 == id)

/-- What holds of every page reached from a fresh one: a toast younger than
1600 ms is attached and has exactly one removal timer, due at its creation
time plus 1600, and no removal yet; an older one is detached, has no timer left
and exactly one removal, at its creation time plus 1600. -/
structure Inv (s : Page) : Prop where
  created_lt : ∀ t ∈ s.created, t.id < s.nextId
  timers_lt : ∀ tm ∈ s.timers, ∀ id, tm.action = TimerAction.removeToast id → id < s.nextId
  removals_lt : ∀ r ∈ s.removals, r.1 < s.nextId
  live : ∀ t ∈ s.created, s.now < t.createdAt + 1600 →
    t ∈ s.bodyToasts ∧
    timersFor t.id s.timers = [⟨t.createdAt + 1600, TimerAction.removeToast t.id⟩] ∧
    removalsOf t.id s.removals = []
  gone : ∀ t ∈ s.created, t.createdAt + 1600 ≤ s.now →
    t ∉ s.bodyToasts ∧ timersFor t.id s.timers = [] ∧
    removalsOf t.id s.removals = [(t.id, t.createdAt + 1600)]

/-! ## Lemmas on the string primitives -/

theorem pad_eq_twoDigits (n : Nat) (h : n < 100) : pad n = twoDigits n := by
  interval_cases n <;> rfl

theorem repr_eq_fourDigits (n : Nat) (h1 : 1000 ≤ n) (h2 : n ≤ 9999) :
    Nat.repr n = fourDigits n := by
  obtain ⟨k, rfl⟩ : ∃ k, n = k + 3 := ⟨n - 3, by omega⟩
  have e1 : ¬ (k + 3) / 10 = 0 := by omega
  have e2 : ¬ (k + 3) / 10 / 10 = 0 := by omega
  have e3 : ¬ (k + 3) / 10 / 10 / 10 = 0 := by omega
  have e4 : (k + 3) / 10 / 10 / 10 / 10 = 0 := by omega
  have d3 : (k + 3) / 10 / 10 / 10 % 10 = (k + 3) / 1000 := by omega
  have d2 : (k + 3) / 10 / 10 % 10 = (k + 3) / 100 % 10 := by omega
  simp only [Nat.repr, Nat.toDigits, Nat.toDigitsCore, e1, e2, e3, e4, if_false, if_true,
    fourDigits, List.asString, d2, d3]

theorem ts_eq (d : LocalDate) (hm : d.month < 12) (hd : d.date ≤ 31) :
    ts d = jsIntToString d.fullYear ++ "." ++ twoDigits (d.month + 1) ++ "."
      ++ twoDigits d.date := by
  unfold ts
  rw [pad_eq_twoDigits _ (by omega), pad_eq_twoDigits _ (by omega)]

theorem length_tail (a b c : String) (m n : Nat) :
    (a ++ b ++ twoDigits m ++ c ++ twoDigits n).length = a.length + b.length + c.length + 4 := by
  simp only [String.length_append, twoDigits, String.length_mk, List.length_cons,
    List.length_nil]
  omega

/-! ## Date stamp -/

/-- C1: for every year `y`, month index `m` in `0..11` and day `d` up to `31`,
when the element `last-updated` exists the date stamp sets its text to exactly
`decimal(y) ++ "." ++ MM ++ "." ++ DD`, where `MM` is `m + 1` and `DD` is `d`,
each written as two decimal digits, and changes nothing else; when the element
is absent the page is left exactly as it was. 2024-03-07 gives `2024.03.07`
and 2024-11-23 gives `2024.11.23`. -/
theorem dateStamp_value (y : Int) (m d : Nat) (hm : m < 12) (hd : d ≤ 31) (s : Page) :
    (∀ old, s.lastUpdated = some old →
      dateStamp ⟨y, m, d⟩ s =
        { s with
          lastUpdated := some (jsIntToString y ++ "." ++ twoDigits (m + 1) ++ "." ++ twoDigits d) }) ∧
    (s.lastUpdated = none → dateStamp ⟨y, m, d⟩ s = s) ∧
    ts ⟨2024, 2, 7⟩ = "2024.03.07" ∧ ts ⟨2024, 10, 23⟩ = "2024.11.23" := by
  refine ⟨?_, ?_, by decide, by decide⟩
  · intro old h
    simp only [dateStamp, h]
    rw [ts_eq ⟨y, m, d⟩ hm hd]
  · intro h
    simp only [dateStamp, h]

/-- Witness of C1: on a page whose element `last-updated` is empty, the date
2024-03-07 is stamped as `2024.03.07`. -/
theorem dateStamp_value_witness :
    (dateStamp ⟨2024, 2, 7⟩ (Page.fresh 0 (some "") true)).lastUpdated
      = some "2024.03.07" := by
  rw [(dateStamp_value 2024 2 7 (by decide) (by decide) (Page.fresh 0 (some "") true)).1
    "" rfl]
  decide

/-- C2, as stated, fails: the year is written with as many digits as it has, so
the first day of the year 10000 is stamped with eleven characters and the first
day of the year 999 with nine. -/
theorem dateStamp_shape_counterexample :
    ts ⟨10000, 0, 1⟩ = "10000.01.01" ∧ (ts ⟨10000, 0, 1⟩).length ≠ 10 ∧
    ts ⟨999, 0, 1⟩ = "999.01.01" ∧ (ts ⟨999, 0, 1⟩).length ≠ 10 := by
  decide

/-- C2, amended: for every date the month and the day are rendered with
exactly two digits each and the stamp is the decimal year followed by the six
characters `.MM.DD`; when the year has four digits (1000 to 9999) the stamp
has the shape `YYYY.MM.DD`, exactly ten characters: the four year digits, a
dot, two month digits, a dot, two day digits. -/
theorem dateStamp_shape (y : Int) (m d : Nat) (hm : m < 12) (hd : d ≤ 31) :
    (ts ⟨y, m, d⟩ = jsIntToString y ++ "." ++ twoDigits (m + 1) ++ "." ++ twoDigits d ∧
      (ts ⟨y, m, d⟩).length = (jsIntToString y).length + 6) ∧
    (1000 ≤ y → y ≤ 9999 →
      ts ⟨y, m, d⟩ = fourDigits y.toNat ++ "." ++ twoDigits (m + 1) ++ "." ++ twoDigits d ∧
      (ts ⟨y, m, d⟩).length = 10) := by
  have h := ts_eq ⟨y, m, d⟩ hm hd
  simp only at h
  refine ⟨⟨h, ?_⟩, ?_⟩
  · rw [h, length_tail]; rfl
  · intro h1 h2
    obtain ⟨n, rfl⟩ : ∃ n : Nat, y = (n : Int) := ⟨y.toNat, by omega⟩
    have hn1 : 1000 ≤ n := by exact_mod_cast h1
    have hn2 : n ≤ 9999 := by exact_mod_cast h2
    have hy : jsIntToString (n : Int) = fourDigits n := by
      show jsIntToString (Int.ofNat n) = fourDigits n
      simp only [jsIntToString]; exact repr_eq_fourDigits n hn1 hn2
    rw [h, hy]
    refine ⟨by simp, ?_⟩
    rw [length_tail]; rfl

/-- Witness of C2 (amended): 2024-11-23 is stamped with ten characters. -/
theorem dateStamp_shape_witness :
    ts ⟨2024, 10, 23⟩ = fourDigits 2024 ++ "." ++ twoDigits 11 ++ "." ++ twoDigits 23 ∧
    (ts ⟨2024, 10, 23⟩).length = 10 :=
  (dateStamp_shape 2024 10 23 (by decide) (by decide)).2 (by decide) (by decide)

/-! ## Tap-to-copy click handler -/

theorem guard_of_contact (a : Anchor) (hc : isContact a) :
    (!truthy (isTel a) && !truthy (isMail a)) = false := by
  obtain ⟨h, hh, ht | hm⟩ := hc
  · simp [isTel, hh, truthy, ht]
  · simp [isMail, hh, truthy, hm]

theorem guard_of_not_contact (a : Anchor) (hc : ¬ isContact a) :
    (!truthy (isTel a) && !truthy (isMail a)) = true := by
  cases hh : a.hrefAttr with
  | none => simp [isTel, isMail, hh, truthy]
  | some h =>
    have ht : startsWith h "tel:" = false := by
      cases ht : startsWith h "tel:" with
      | false => rfl
      | true => exact absurd ⟨h, hh, Or.inl ht⟩ hc
    have hm : startsWith h "mailto:" = false := by
      cases hm : startsWith h "mailto:" with
      | false => rfl
      | true => exact absurd ⟨h, hh, Or.inr hm⟩ hc
    simp [isTel, isMail, hh, truthy, ht, hm]

theorem onClick_resolved (e : ClickEvent) (a : Anchor) (s : Page)
    (ha : e.closestAnchor = some a) (hc : isContact a) (hb : s.hasBody = true) :
    onClick e ClipOutcome.resolved s
      = (Completion.normal, { e with defaultPrevented := true },
          { s with
            clipboardWrites := s.clipboardWrites ++ [trim a.textContent],
            nextId := s.nextId + 1,
            bodyToasts := s.bodyToasts ++
              [⟨s.nextId, "已复制：" ++ trim a.textContent, toastStyle, s.now⟩],
            created := s.created ++
              [⟨s.nextId, "已复制：" ++ trim a.textContent, toastStyle, s.now⟩],
            timers := s.timers ++
              [⟨s.now + 1600, TimerAction.removeToast s.nextId⟩,
               ⟨s.now + 1500, TimerAction.navigate a⟩] }) := by
  simp [onClick, ha, guard_of_contact a hc, tryBlock, writeText, toast, setTimeout, hb]

theorem onClick_resolved_noBody (e : ClickEvent) (a : Anchor) (s : Page)
    (ha : e.closestAnchor = some a) (hc : isContact a) (hb : s.hasBody = false) :
    onClick e ClipOutcome.resolved s
      = (Completion.normal, { e with defaultPrevented := true },
          { s with
            clipboardWrites := s.clipboardWrites ++ [trim a.textContent],
            nextId := s.nextId + 1,
            navigations := s.navigations ++ [(s.now, a.href)] }) := by
  simp [onClick, ha, guard_of_contact a hc, tryBlock, writeText, toast, hb, assignLocation]

theorem onClick_rejected (e : ClickEvent) (a : Anchor) (s : Page)
    (ha : e.closestAnchor = some a) (hc : isContact a) :
    onClick e ClipOutcome.rejected s
      = (Completion.normal, { e with defaultPrevented := true },
          { s with
            clipboardWrites := s.clipboardWrites ++ [trim a.textContent],
            navigations := s.navigations ++ [(s.now, a.href)] }) := by
  simp [onClick, ha, guard_of_contact a hc, tryBlock, writeText, assignLocation]

theorem onClick_unavailable (e : ClickEvent) (a : Anchor) (s : Page)
    (ha : e.closestAnchor = some a) (hc : isContact a) :
    onClick e ClipOutcome.unavailable s
      = (Completion.normal, { e with defaultPrevented := true },
          { s with navigations := s.navigations ++ [(s.now, a.href)] }) := by
  simp [onClick, ha, guard_of_contact a hc, tryBlock, writeText, assignLocation]

/-- C3, as stated, fails: a successful clipboard write is not enough for the
toast and the delayed navigation. On a document without a body `toast` throws
inside the `try` block, so the click on the `tel:+123` anchor puts no toast on
the page, sets no timer, and navigates at once. -/
theorem onClick_success_counterexample :
    onClick ⟨some ⟨some "tel:+123", "tel:+123", "+123"⟩, false⟩ ClipOutcome.resolved
        (Page.fresh 0 none false)
      = (Completion.normal, ⟨some ⟨some "tel:+123", "tel:+123", "+123"⟩, true⟩,
          { Page.fresh 0 none false with
            nextId := 1, clipboardWrites := ["+123"], navigations := [(0, "tel:+123")] }) := by
  decide

/-- C3, amended: for every click whose nearest anchor has an href attribute
starting with `tel:` or `mailto:`, when the clipboard write succeeds and the
document has a body (so that `toast` completes), the handler cancels the
default navigation, calls the clipboard write with exactly the trimmed text
content of the anchor, appends one toast whose text is `已复制：` followed by
that string (with its own removal timer), performs no navigation, and sets
exactly one timer, due in 1500 ms, whose closure navigates to the address of
the anchor. -/
theorem onClick_success (e : ClickEvent) (a : Anchor) (s : Page)
    (ha : e.closestAnchor = some a) (hc : isContact a) (hb : s.hasBody = true) :
    onClick e ClipOutcome.resolved s
      = (Completion.normal, { e with defaultPrevented := true },
          { s with
            clipboardWrites := s.clipboardWrites ++ [trim a.textContent],
            nextId := s.nextId + 1,
            bodyToasts := s.bodyToasts ++
              [⟨s.nextId, "已复制：" ++ trim a.textContent, toastStyle, s.now⟩],
            created := s.created ++
              [⟨s.nextId, "已复制：" ++ trim a.textContent, toastStyle, s.now⟩],
            timers := s.timers ++
              [⟨s.now + 1600, TimerAction.removeToast s.nextId⟩,
               ⟨s.now + 1500, TimerAction.navigate a⟩] }) ∧
    ∀ (p : Page) (due : Nat),
      runCallback p ⟨due, TimerAction.navigate a⟩
        = { p with navigations := p.navigations ++ [(p.now, a.href)] } := by
  exact ⟨onClick_resolved e a s ha hc hb, fun p due => rfl⟩

/-- Witness of C3 (amended): for href `tel:+123` with text `+123` the clipboard
receives `+123` and the timer navigates to `tel:+123`; the same for
`mailto:a@b.com`. -/
theorem onClick_success_witness :
    (onClick ⟨some ⟨some "tel:+123", "tel:+123", "+123"⟩, false⟩ ClipOutcome.resolved
        (Page.fresh 0 none true)
      = (Completion.normal, ⟨some ⟨some "tel:+123", "tel:+123", "+123"⟩, true⟩,
          { Page.fresh 0 none true with
            clipboardWrites := ["+123"], nextId := 1,
            bodyToasts := [⟨0, "已复制：+123", toastStyle, 0⟩],
            created := [⟨0, "已复制：+123", toastStyle, 0⟩],
            timers := [⟨1600, TimerAction.removeToast 0⟩,
              ⟨1500, TimerAction.navigate ⟨some "tel:+123", "tel:+123", "+123"⟩⟩] })) ∧
    (onClick ⟨some ⟨some "mailto:a@b.com", "mailto:a@b.com", " a@b.com "⟩, false⟩
        ClipOutcome.resolved (Page.fresh 0 none true)).2.2.clipboardWrites = ["a@b.com"] := by
  constructor
  · rw [(onClick_success ⟨some ⟨some "tel:+123", "tel:+123", "+123"⟩, false⟩
      ⟨some "tel:+123", "tel:+123", "+123"⟩ (Page.fresh 0 none true) rfl
      ⟨"tel:+123", rfl, Or.inl (by decide)⟩ rfl).1]
    decide
  · rw [(onClick_success ⟨some ⟨some "mailto:a@b.com", "mailto:a@b.com", " a@b.com "⟩, false⟩
      ⟨some "mailto:a@b.com", "mailto:a@b.com", " a@b.com "⟩ (Page.fresh 0 none true) rfl
      ⟨"mailto:a@b.com", rfl, Or.inr (by decide)⟩ rfl).1]
    decide

/-- C4: for every click on a `tel:` / `mailto:` anchor whose clipboard write is
rejected, the handler cancels the default action, navigates to the address of
the anchor at once, adds no toast and sets no timer (so no delayed
navigation), and its own promise is fulfilled: the rejection does not leave
the handler. The same holds when the clipboard object is missing, in which
case no write is attempted either. -/
theorem onClick_failure (e : ClickEvent) (a : Anchor) (s : Page)
    (ha : e.closestAnchor = some a) (hc : isContact a) :
    onClick e ClipOutcome.rejected s
      = (Completion.normal, { e with defaultPrevented := true },
          { s with
            clipboardWrites := s.clipboardWrites ++ [trim a.textContent],
            navigations := s.navigations ++ [(s.now, a.href)] }) ∧
    onClick e ClipOutcome.unavailable s
      = (Completion.normal, { e with defaultPrevented := true },
          { s with navigations := s.navigations ++ [(s.now, a.href)] }) := by
  exact ⟨onClick_rejected e a s ha hc, onClick_unavailable e a s ha hc⟩

/-- Witness of C4: a rejected write on the `tel:+123` anchor navigates at
once and leaves body and timers empty. -/
theorem onClick_failure_witness :
    onClick ⟨some ⟨some "tel:+123", "tel:+123", "+123"⟩, false⟩ ClipOutcome.rejected
        (Page.fresh 7 none true)
      = (Completion.normal, ⟨some ⟨some "tel:+123", "tel:+123", "+123"⟩, true⟩,
          { Page.fresh 7 none true with
            clipboardWrites := ["+123"], navigations := [(7, "tel:+123")] }) := by
  rw [(onClick_failure ⟨some ⟨some "tel:+123", "tel:+123", "+123"⟩, false⟩
    ⟨some "tel:+123", "tel:+123", "+123"⟩ (Page.fresh 7 none true) rfl
    ⟨"tel:+123", rfl, Or.inl (by decide)⟩).1]
  decide

/-- C5: for every click whose target has no enclosing anchor, or whose nearest
anchor has no href attribute or one that starts with neither `tel:` nor
`mailto:`, the handler returns the event and the page exactly as they were: the
default action is not cancelled, no clipboard write, no toast, no timer and no
navigation. -/
theorem onClick_nonContact (e : ClickEvent) (o : ClipOutcome) (s : Page)
    (h : ∀ a, e.closestAnchor = some a → ¬ isContact a) :
    onClick e o s = (Completion.normal, e, s) := by
  cases ha : e.closestAnchor with
  | none => simp [onClick, ha]
  | some a => simp [onClick, ha, guard_of_not_contact a (h a ha)]

/-- Witness of C5: a click on an `https:` link changes nothing. -/
theorem onClick_nonContact_witness :
    onClick ⟨some ⟨some "https://example.org/", "https://example.org/", "site"⟩, false⟩
        ClipOutcome.resolved (Page.fresh 0 none true)
      = (Completion.normal,
          ⟨some ⟨some "https://example.org/", "https://example.org/", "site"⟩, false⟩,
          Page.fresh 0 none true) :=
  onClick_nonContact _ _ _ (by
    intro a ha
    simp only [Option.some.injEq] at ha
    subst ha
    rintro ⟨h, hh, ht⟩
    simp only [Option.some.injEq] at hh
    subst hh
    revert ht
    decide)

/-- C10: for every click on a `tel:` / `mailto:` anchor, every outcome of the
clipboard write (fulfilled, rejected, clipboard missing) and of the toast call
(body present, or body missing so that it throws), the handler causes exactly
one navigation to the address of the anchor: either no navigation now and one
new timer due in 1500 ms that navigates to it, or one navigation now and no
new navigation timer. -/
theorem onClick_one_navigation (e : ClickEvent) (a : Anchor) (o : ClipOutcome) (s : Page)
    (ha : e.closestAnchor = some a) (hc : isContact a) :
    ((onClick e o s).2.2.navigations = s.navigations ∧
      navigateTimers (onClick e o s).2.2
        = navigateTimers s ++ [⟨s.now + 1500, TimerAction.navigate a⟩]) ∨
    ((onClick e o s).2.2.navigations = s.navigations ++ [(s.now, a.href)] ∧
      navigateTimers (onClick e o s).2.2 = navigateTimers s) := by
  cases o with
  | resolved =>
    cases hb : s.hasBody with
    | true =>
      left
      rw [onClick_resolved e a s ha hc hb]
      simp [navigateTimers, List.filter_append]
    | false =>
      right
      rw [onClick_resolved_noBody e a s ha hc hb]
      simp [navigateTimers]
  | rejected =>
    right
    rw [onClick_rejected e a s ha hc]
    simp [navigateTimers]
  | unavailable =>
    right
    rw [onClick_unavailable e a s ha hc]
    simp [navigateTimers]

/-- Witness of C10: clipboard fulfilled but no body to hold the toast. -/
theorem onClick_one_navigation_witness :
    ((onClick ⟨some ⟨some "tel:+123", "tel:+123", "+123"⟩, false⟩ ClipOutcome.resolved
        (Page.fresh 0 none false)).2.2.navigations = [] ∧
      navigateTimers (onClick ⟨some ⟨some "tel:+123", "tel:+123", "+123"⟩, false⟩
        ClipOutcome.resolved (Page.fresh 0 none false)).2.2
        = [] ++ [⟨0 + 1500, TimerAction.navigate ⟨some "tel:+123", "tel:+123", "+123"⟩⟩]) ∨
    ((onClick ⟨some ⟨some "tel:+123", "tel:+123", "+123"⟩, false⟩ ClipOutcome.resolved
        (Page.fresh 0 none false)).2.2.navigations = [] ++ [(0, "tel:+123")] ∧
      navigateTimers (onClick ⟨some ⟨some "tel:+123", "tel:+123", "+123"⟩, false⟩
        ClipOutcome.resolved (Page.fresh 0 none false)).2.2 = []) :=
  onClick_one_navigation ⟨some ⟨some "tel:+123", "tel:+123", "+123"⟩, false⟩
    ⟨some "tel:+123", "tel:+123", "+123"⟩ ClipOutcome.resolved (Page.fresh 0 none false) rfl
    ⟨"tel:+123", rfl, Or.inl (by decide)⟩

/-! ## External link hardening -/

theorem updateAt_length (f : LinkEl → LinkEl) (i : Nat) (doc : List LinkEl) :
    (updateAt f i doc).length = doc.length := by
  induction doc generalizing i with
  | nil => cases i <;> rfl
  | cons a rest ih =>
    cases i with
    | zero => rfl
    | succ i => simp [updateAt, ih]

theorem updateAt_getElem? (f : LinkEl → LinkEl) (i : Nat) (doc : List LinkEl) (j : Nat) :
    (updateAt f i doc)[j]? = if j = i then (doc[j]?).map f else doc[j]? := by
  induction doc generalizing i j with
  | nil => cases i <;> simp [updateAt]
  | cons a rest ih =>
    cases i with
    | zero =>
      cases j with
      | zero => simp [updateAt]
      | succ j => simp [updateAt]
    | succ i =>
      cases j with
      | zero => simp [updateAt]
      | succ j => simp [updateAt, ih]

theorem hardenLink_getElem? (doc : List LinkEl) (i j : Nat) :
    (hardenLink doc i)[j]? = if j = i then (doc[j]?).map hardened else doc[j]? := by
  unfold hardenLink
  rw [updateAt_getElem?, updateAt_getElem?]
  by_cases h : j = i
  · simp only [h, if_true, Option.map_map]
    rfl
  · simp only [h, if_false]

theorem hardened_hardened : hardened ∘ hardened = hardened := by
  funext a
  rcases a with ⟨k, h, t, r⟩
  cases k <;> rfl

theorem foldl_hardenLink_length (is : List Nat) (doc : List LinkEl) :
    (is.foldl hardenLink doc).length = doc.length := by
  induction is generalizing doc with
  | nil => rfl
  | cons i is ih =>
    rw [List.foldl_cons, ih]
    simp [hardenLink, updateAt_length]

theorem foldl_hardenLink_getElem? (is : List Nat) (doc : List LinkEl) (j : Nat) :
    (is.foldl hardenLink doc)[j]? = if j ∈ is then (doc[j]?).map hardened else doc[j]? := by
  induction is generalizing doc with
  | nil => simp
  | cons i is ih =>
    rw [List.foldl_cons, ih, hardenLink_getElem?]
    by_cases h1 : j = i
    · subst h1
      by_cases h2 : j ∈ is
      · simp only [h2, if_true, List.mem_cons, true_or, Option.map_map, hardened_hardened]
      · simp [h2]
    · by_cases h2 : j ∈ is
      · simp [h1, h2]
      · simp [h1, h2]

theorem mem_links (doc : List LinkEl) (j : Nat) :
    j ∈ links doc ↔ ∃ a, doc[j]? = some a ∧ hrefBeginsHttp a = true := by
  unfold links
  rw [List.mem_filter, List.mem_range]
  constructor
  · rintro ⟨_, h⟩
    cases hj : doc[j]? with
    | none => simp [hj] at h
    | some a => exact ⟨a, rfl, by simpa [hj] using h⟩
  · rintro ⟨a, ha, hh⟩
    refine ⟨?_, by simp [ha, hh]⟩
    by_contra hlt
    rw [List.getElem?_eq_none (by omega)] at ha
    cases ha

theorem hardenLinks_getElem? (doc : List LinkEl) (j : Nat) (a : LinkEl)
    (ha : doc[j]? = some a) :
    (hardenLinks doc)[j]? = some (if hrefBeginsHttp a then hardened a else a) := by
  unfold hardenLinks
  rw [foldl_hardenLink_getElem?]
  by_cases h : hrefBeginsHttp a = true
  · have : j ∈ links doc := (mem_links doc j).2 ⟨a, ha, h⟩
    simp [this, ha, h]
  · have : j ∉ links doc := by
      intro hm
      obtain ⟨b, hb, hh⟩ := (mem_links doc j).1 hm
      rw [ha] at hb
      cases hb
      exact h hh
    simp [this, ha, h]

theorem not_http_of_first (h : String) (c : Char) (rest : List Char)
    (hd : h.data = c :: rest) (hc : c ≠ 'h') : startsWith h "http" = false := by
  have e : ("http" : String).data = ['h', 't', 't', 'p'] := rfl
  simp only [startsWith, hd, e, List.isPrefixOf]
  simp [Ne.symm hc]

theorem first_of_startsWith (h p : String) (c : Char) (ps : List Char)
    (hp : p.data = c :: ps) (hs : startsWith h p = true) :
    ∃ rest, h.data = c :: rest := by
  unfold startsWith at hs
  rw [hp] at hs
  cases hd : h.data with
  | nil => rw [hd] at hs; simp [List.isPrefixOf] at hs
  | cons x rest =>
    rw [hd] at hs
    simp only [List.isPrefixOf, Bool.and_eq_true, beq_iff_eq] at hs
    exact ⟨rest, by rw [hs.1]⟩

theorem not_http_of_hash (h : String) (hs : startsWith h "#" = true) :
    startsWith h "http" = false := by
  obtain ⟨rest, hd⟩ := first_of_startsWith h "#" '#' [] rfl hs
  exact not_http_of_first h '#' rest hd (by decide)

theorem not_http_of_tel (h : String) (hs : startsWith h "tel:" = true) :
    startsWith h "http" = false := by
  obtain ⟨rest, hd⟩ := first_of_startsWith h "tel:" 't' ['e', 'l', ':'] rfl hs
  exact not_http_of_first h 't' rest hd (by decide)

theorem not_http_of_mailto (h : String) (hs : startsWith h "mailto:" = true) :
    startsWith h "http" = false := by
  obtain ⟨rest, hd⟩ :=
    first_of_startsWith h "mailto:" 'm' ['a', 'i', 'l', 't', 'o', ':'] rfl hs
  exact not_http_of_first h 'm' rest hd (by decide)

/-- What the pass does to each anchor: the document keeps its anchors in their
places; an HTML anchor whose href attribute begins with `http` gets target
`_blank` and rel `noopener noreferrer`; an SVG anchor is left as it was even
when the selector matches it; every anchor whose href attribute does not begin
with `http` is left as it was, and an anchor without href, or with an href that
begins with `#`, `tel:` or `mailto:`, is of that kind. -/
theorem hardenLinks_each (doc : List LinkEl) :
    (hardenLinks doc).length = doc.length ∧
    (∀ (i : Nat) (a : LinkEl), doc[i]? = some a →
      (hrefBeginsHttp a = true → a.kind = AnchorKind.html →
        (hardenLinks doc)[i]? =
          some { a with target := some "_blank", rel := some "noopener noreferrer" }) ∧
      (hrefBeginsHttp a = true → a.kind = AnchorKind.svg → (hardenLinks doc)[i]? = some a) ∧
      (hrefBeginsHttp a = false → (hardenLinks doc)[i]? = some a)) ∧
    (∀ a : LinkEl, a.hrefAttr = none → hrefBeginsHttp a = false) ∧
    (∀ (a : LinkEl) (h : String), a.hrefAttr = some h →
      startsWith h "#" = true ∨ startsWith h "tel:" = true ∨ startsWith h "mailto:" = true →
      hrefBeginsHttp a = false) := by
  refine ⟨foldl_hardenLink_length _ _, ?_, ?_, ?_⟩
  · intro i a ha
    have h := hardenLinks_getElem? doc i a ha
    refine ⟨?_, ?_, ?_⟩
    · intro hh hk
      rw [h, hh]
      simp [hardened, assignRel, assignTarget, hk]
    · intro hh hk
      rw [h, hh]
      simp [hardened, assignRel, assignTarget, hk]
    · intro hh
      rw [h, hh]
      rfl
  · intro a ha
    simp [hrefBeginsHttp, ha]
  · intro a h ha hs
    simp only [hrefBeginsHttp, ha]
    rcases hs with hs | hs | hs
    · exact not_http_of_hash h hs
    · exact not_http_of_tel h hs
    · exact not_http_of_mailto h hs

/-- C6: the code does not do what the claim says for an SVG anchor. The anchor
`<a href="http://x.example/">` inside an `<svg>` has an href attribute that
begins with `http` and is selected by `links`, yet after the pass it has
neither target `_blank` nor rel `noopener noreferrer`: it is exactly as it was.
The same anchor as an HTML element is hardened. -/
theorem hardenLinks_svg_unhardened :
    hrefBeginsHttp ⟨AnchorKind.svg, some "http://x.example/", none, none⟩ = true ∧
    links [⟨AnchorKind.svg, some "http://x.example/", none, none⟩] = [0] ∧
    hardenLinks [⟨AnchorKind.svg, some "http://x.example/", none, none⟩]
      = [⟨AnchorKind.svg, some "http://x.example/", none, none⟩] ∧
    hardenLinks [⟨AnchorKind.html, some "http://x.example/", none, none⟩]
      = [⟨AnchorKind.html, some "http://x.example/", some "_blank",
          some "noopener noreferrer"⟩] := by
  decide

/-- C7, as stated, fails: the relative address `http-archive/index.html` has no
scheme, yet it begins with the four characters `http`, so the pass matches it
and sets its target and rel. -/
theorem hardenLinks_relative_counterexample :
    hardenLinks [⟨AnchorKind.html, some "http-archive/index.html", none, none⟩]
      = [⟨AnchorKind.html, some "http-archive/index.html", some "_blank",
          some "noopener noreferrer"⟩] := by
  decide

/-- C7, amended: for every anchor whose address does not begin with the four
characters `http` (a relative address with any other beginning), and for every
in-page anchor (`#...`), the pass leaves the anchor, and so its target and rel,
exactly as it was. -/
theorem hardenLinks_relative (doc : List LinkEl) (i : Nat) (a : LinkEl) (h : String)
    (hi : doc[i]? = some a) (hh : a.hrefAttr = some h) :
    (startsWith h "http" = false → (hardenLinks doc)[i]? = some a) ∧
    (startsWith h "#" = true → (hardenLinks doc)[i]? = some a) := by
  have key : startsWith h "http" = false → (hardenLinks doc)[i]? = some a := by
    intro hs
    have hb : hrefBeginsHttp a = false := by simp [hrefBeginsHttp, hh, hs]
    rw [hardenLinks_getElem? doc i a hi, hb]
    rfl
  exact ⟨key, fun hs => key (not_http_of_hash h hs)⟩

/-- Witness of C7 (amended): the relative address `docs/http.html` and the
in-page anchor `#top` are untouched. -/
theorem hardenLinks_relative_witness :
    (hardenLinks [⟨AnchorKind.html, some "docs/http.html", none, some "help"⟩, ⟨AnchorKind.html, some "#top", none, none⟩])[0]?
        = some ⟨AnchorKind.html, some "docs/http.html", none, some "help"⟩ ∧
    (hardenLinks [⟨AnchorKind.html, some "docs/http.html", none, some "help"⟩, ⟨AnchorKind.html, some "#top", none, none⟩])[1]?
        = some ⟨AnchorKind.html, some "#top", none, none⟩ :=
  ⟨(hardenLinks_relative
      [⟨AnchorKind.html, some "docs/http.html", none, some "help"⟩, ⟨AnchorKind.html, some "#top", none, none⟩] 0
      ⟨AnchorKind.html, some "docs/http.html", none, some "help"⟩ "docs/http.html" rfl rfl).1 (by decide),
   (hardenLinks_relative
      [⟨AnchorKind.html, some "docs/http.html", none, some "help"⟩, ⟨AnchorKind.html, some "#top", none, none⟩] 1
      ⟨AnchorKind.html, some "#top", none, none⟩ "#top" rfl rfl).2 (by decide)⟩

/-! ## Language toggle -/

/-- C9: when the element `lang-toggle` exists (and the script has registered
nothing before), the ready handler registers exactly one click listener, and
from then on every click on the element, whatever was visited before, assigns
exactly `https://cv.whynotcloud.ltd/cn/index.html` to the location once and
changes nothing else; when the element does not exist the ready handler
changes nothing, so no listener is registered, and no sequence of events
changes the page: no navigation results. -/
theorem langToggle_spec (s : MainPage) :
    (s.hasLangToggle = true → s.toggleListeners = [] →
      (onDOMContentLoaded s).toggleListeners
        = [Listener.setLocation "https://cv.whynotcloud.ltd/cn/index.html"] ∧
      ∀ navs : List String,
        clickLangToggle { onDOMContentLoaded s with navigations := navs }
          = { onDOMContentLoaded s with
              navigations := navs ++ ["https://cv.whynotcloud.ltd/cn/index.html"] }) ∧
    (s.hasLangToggle = false →
      onDOMContentLoaded s = s ∧ ∀ evs : List MainEv, mainRun evs s = s) := by
  constructor
  · intro ht hl
    constructor
    · simp [onDOMContentLoaded, ht, hl, zhUrl]
    · intro navs
      simp [onDOMContentLoaded, clickLangToggle, ht, hl, runListener, zhUrl]
  · intro ht
    have h1 : onDOMContentLoaded s = s := by simp [onDOMContentLoaded, ht]
    have h2 : clickLangToggle s = s := by simp [clickLangToggle, ht]
    refine ⟨h1, ?_⟩
    intro evs
    induction evs with
    | nil => rfl
    | cons ev evs ih =>
      cases ev with
      | domContentLoaded =>
        show mainRun evs (onDOMContentLoaded s) = s
        rw [h1]; exact ih
      | clickToggle =>
        show mainRun evs (clickLangToggle s) = s
        rw [h2]; exact ih

/-- Witness of C9: on a page with the toggle the ready handler registers the
one listener, and a click then visits the Chinese page and nothing else. -/
theorem langToggle_spec_witness :
    (onDOMContentLoaded ⟨true, [], []⟩).toggleListeners
      = [Listener.setLocation "https://cv.whynotcloud.ltd/cn/index.html"] ∧
    ∀ navs : List String,
      clickLangToggle { onDOMContentLoaded ⟨true, [], []⟩ with navigations := navs }
        = { onDOMContentLoaded ⟨true, [], []⟩ with
            navigations := navs ++ ["https://cv.whynotcloud.ltd/cn/index.html"] } :=
  (langToggle_spec ⟨true, [], []⟩).1 rfl rfl

/-! ## Toast lifetime -/

theorem timersFor_append (id : Nat) (xs ys : List Timer) :
    timersFor id (xs ++ ys) = timersFor id xs ++ timersFor id ys := by
  simp [timersFor, List.filter_append]

theorem timersFor_eq_nil (id : Nat) (ts : List Timer)
    (h : ∀ tm ∈ ts, tm.action ≠ TimerAction.removeToast id) : timersFor id ts = [] := by
  simp only [timersFor, List.filter_eq_nil_iff, beq_iff_eq]
  exact h

theorem removalsOf_eq_nil (id : Nat) (rs : List (Nat × Nat)) (h : ∀ r ∈ rs, r.1 ≠ id) :
    removalsOf id rs = [] := by
  simp only [removalsOf, List.filter_eq_nil_iff, beq_iff_eq]
  exact h

theorem Inv_fresh (now : Nat) (lu : Option String) (hb : Bool) : Inv (Page.fresh now lu hb) := by
  constructor <;> simp [Page.fresh]

theorem Inv_toast (msg : String) (s : Page) (h : Inv s) : Inv (toast msg s).2 := by
  cases hb : s.hasBody with
  | false =>
    simp only [toast, hb]
    exact ⟨fun t ht => Nat.lt_succ_of_lt (h.created_lt t ht),
      fun tm htm id hid => Nat.lt_succ_of_lt (h.timers_lt tm htm id hid),
      fun r hr => Nat.lt_succ_of_lt (h.removals_lt r hr), h.live, h.gone⟩
  | true =>
    simp only [toast, hb, setTimeout, if_true]
    have hnew : timersFor s.nextId s.timers = [] :=
      timersFor_eq_nil _ _ (fun tm htm he => Nat.lt_irrefl _ (h.timers_lt tm htm _ he))
    have hold : ∀ t ∈ s.created,
        timersFor t.id [(⟨s.now + 1600, TimerAction.removeToast s.nextId⟩ : Timer)] = [] := by
      intro t ht
      apply timersFor_eq_nil
      intro tm htm he
      simp only [List.mem_singleton] at htm
      subst htm
      simp only [TimerAction.removeToast.injEq] at he
      have := h.created_lt t ht
      omega
    refine ⟨?_, ?_, ?_, ?_, ?_⟩
    · intro t ht
      simp only [List.mem_append, List.mem_singleton] at ht
      rcases ht with ht | rfl
      · exact Nat.lt_succ_of_lt (h.created_lt t ht)
      · exact Nat.lt_succ_self _
    · intro tm htm id hid
      simp only [List.mem_append, List.mem_singleton] at htm
      rcases htm with htm | rfl
      · exact Nat.lt_succ_of_lt (h.timers_lt tm htm id hid)
      · simp only [TimerAction.removeToast.injEq] at hid
        subst hid
        exact Nat.lt_succ_self _
    · intro r hr
      exact Nat.lt_succ_of_lt (h.removals_lt r hr)
    · intro t ht hlt
      simp only [List.mem_append, List.mem_singleton] at ht
      rcases ht with ht | rfl
      · obtain ⟨h1, h2, h3⟩ := h.live t ht hlt
        refine ⟨List.mem_append_left _ h1, ?_, h3⟩
        rw [timersFor_append, h2, hold t ht]
        rfl
      · refine ⟨by simp, ?_, ?_⟩
        · rw [timersFor_append, hnew]
          simp [timersFor]
        · exact removalsOf_eq_nil _ _
            (fun r hr he => Nat.lt_irrefl _ (he ▸ h.removals_lt r hr))
    · intro t ht hle
      simp only [List.mem_append, List.mem_singleton] at ht
      rcases ht with ht | rfl
      · obtain ⟨h1, h2, h3⟩ := h.gone t ht hle
        refine ⟨?_, ?_, h3⟩
        · simp only [List.mem_append, List.mem_singleton, not_or]
          refine ⟨h1, ?_⟩
          intro he
          have := h.created_lt t ht
          rw [he] at this
          exact Nat.lt_irrefl _ this
        · rw [timersFor_append, h2, hold t ht]
          rfl
      · simp only at hle
        omega


theorem Inv_of_fields (s s' : Page) (h : Inv s) (h1 : s'.now = s.now)
    (h2 : s'.nextId = s.nextId) (h3 : s'.bodyToasts = s.bodyToasts)
    (h4 : s'.timers = s.timers) (h5 : s'.created = s.created)
    (h6 : s'.removals = s.removals) : Inv s' := by
  constructor
  · rw [h5, h2]; exact h.created_lt
  · rw [h4, h2]; exact h.timers_lt
  · rw [h6, h2]; exact h.removals_lt
  · rw [h5, h1, h3, h4, h6]; exact h.live
  · rw [h5, h1, h3, h4, h6]; exact h.gone

theorem Inv_writeText (text : String) (o : ClipOutcome) (s : Page) (h : Inv s) :
    Inv (writeText text o s).2 := by
  cases o <;> exact Inv_of_fields s _ h rfl rfl rfl rfl rfl rfl

theorem Inv_assignLocation (url : String) (s : Page) (h : Inv s) :
    Inv (assignLocation url s) :=
  Inv_of_fields s _ h rfl rfl rfl rfl rfl rfl

theorem Inv_setTimeout_navigate (a : Anchor) (delay : Nat) (s : Page) (h : Inv s) :
    Inv (setTimeout (TimerAction.navigate a) delay s) := by
  have hnav : ∀ id, timersFor id [(⟨s.now + delay, TimerAction.navigate a⟩ : Timer)] = [] := by
    intro id
    apply timersFor_eq_nil
    intro tm htm he
    simp only [List.mem_singleton] at htm
    subst htm
    cases he
  refine ⟨h.created_lt, ?_, h.removals_lt, ?_, ?_⟩
  · intro tm htm id hid
    simp only [setTimeout, List.mem_append, List.mem_singleton] at htm
    rcases htm with htm | rfl
    · exact h.timers_lt tm htm id hid
    · cases hid
  · intro t ht hlt
    obtain ⟨h1, h2, h3⟩ := h.live t ht hlt
    refine ⟨h1, ?_, h3⟩
    simp only [setTimeout]
    rw [timersFor_append, h2, hnav]
    rfl
  · intro t ht hle
    obtain ⟨h1, h2, h3⟩ := h.gone t ht hle
    refine ⟨h1, ?_, h3⟩
    simp only [setTimeout]
    rw [timersFor_append, h2, hnav]
    rfl

theorem Inv_tryBlock (a : Anchor) (text : String) (o : ClipOutcome) (s : Page) (h : Inv s) :
    Inv (tryBlock a text o s).2 := by
  unfold tryBlock
  have hw := Inv_writeText text o s h
  rcases hwe : writeText text o s with ⟨c1, s1⟩
  rw [hwe] at hw
  cases c1 with
  | thrown => exact hw
  | normal =>
    dsimp only
    have ht := Inv_toast ("已复制：" ++ text) s1 hw
    rcases hte : toast ("已复制：" ++ text) s1 with ⟨c2, s2⟩
    rw [hte] at ht
    cases c2 with
    | thrown => exact ht
    | normal => exact Inv_setTimeout_navigate a 1500 s2 ht

theorem Inv_onClick (e : ClickEvent) (o : ClipOutcome) (s : Page) (h : Inv s) :
    Inv (onClick e o s).2.2 := by
  unfold onClick
  cases e.closestAnchor with
  | none => exact h
  | some a =>
    simp only
    split
    · exact h
    · have ht := Inv_tryBlock a
        (if truthy (isTel a) then trim a.textContent else trim a.textContent) o s h
      rcases hte : tryBlock a
        (if truthy (isTel a) then trim a.textContent else trim a.textContent) o s with ⟨c, s1⟩
      rw [hte] at ht
      cases c with
      | normal => exact ht
      | thrown => exact Inv_assignLocation a.href s1 ht


theorem foldl_runCallback_fields (due : List Timer) (s : Page) :
    (due.foldl runCallback s).now = s.now ∧ (due.foldl runCallback s).nextId = s.nextId ∧
    (due.foldl runCallback s).timers = s.timers ∧
    (due.foldl runCallback s).created = s.created := by
  induction due generalizing s with
  | nil => exact ⟨rfl, rfl, rfl, rfl⟩
  | cons tm due ih =>
    rw [List.foldl_cons]
    obtain ⟨h1, h2, h3, h4⟩ := ih (runCallback s tm)
    rw [h1, h2, h3, h4]
    unfold runCallback
    cases tm.action <;> exact ⟨rfl, rfl, rfl, rfl⟩

theorem mem_foldl_runCallback (due : List Timer) (s : Page) (e : ToastEl) :
    e ∈ (due.foldl runCallback s).bodyToasts ↔
      e ∈ s.bodyToasts ∧ ∀ tm ∈ due, tm.action ≠ TimerAction.removeToast e.id := by
  induction due generalizing s with
  | nil => simp
  | cons tm due ih =>
    rw [List.foldl_cons, ih]
    unfold runCallback
    cases ha : tm.action with
    | removeToast id =>
      simp only [List.mem_filter, bne_iff_ne, ne_eq, List.mem_cons, forall_eq_or_imp, ha,
        TimerAction.removeToast.injEq]
      constructor
      · rintro ⟨⟨h1, h2⟩, h3⟩
        exact ⟨h1, fun h => h2 h.symm, h3⟩
      · rintro ⟨h1, h2, h3⟩
        exact ⟨⟨h1, fun h => h2 h.symm⟩, h3⟩
    | navigate a =>
      simp [assignLocation, ha]

theorem removalsOf_foldl_runCallback (due : List Timer) (s : Page) (id : Nat) :
    removalsOf id (due.foldl runCallback s).removals =
      removalsOf id s.removals ++ (timersFor id due).map (fun _ => (id, s.now)) := by
  induction due generalizing s with
  | nil => simp [timersFor]
  | cons tm due ih =>
    rw [List.foldl_cons, ih]
    unfold runCallback
    cases ha : tm.action with
    | removeToast id' =>
      by_cases hid : id' = id
      · subst hid
        simp [removalsOf, timersFor, List.filter_cons, ha, List.filter_append]
      · have hid' : ¬ id = id' := fun h => hid h.symm
        simp [removalsOf, timersFor, List.filter_cons, ha, List.filter_append, hid, hid']
    | navigate a =>
      simp [removalsOf, timersFor, List.filter_cons, ha, assignLocation]

theorem removals_foldl_runCallback (due : List Timer) (s : Page) (r : Nat × Nat)
    (hr : r ∈ (due.foldl runCallback s).removals) :
    r ∈ s.removals ∨ ∃ tm ∈ due, tm.action = TimerAction.removeToast r.1 := by
  induction due generalizing s with
  | nil => exact Or.inl hr
  | cons tm due ih =>
    rw [List.foldl_cons] at hr
    rcases ih _ hr with h | ⟨tm', h1, h2⟩
    · unfold runCallback at h
      cases ha : tm.action with
      | removeToast id =>
        rw [ha] at h
        simp only [List.mem_append, List.mem_singleton] at h
        rcases h with h | rfl
        · exact Or.inl h
        · exact Or.inr ⟨tm, List.mem_cons_self _ _, ha⟩
      | navigate a =>
        rw [ha] at h
        exact Or.inl h
    · exact Or.inr ⟨tm', List.mem_cons_of_mem _ h1, h2⟩

theorem timersFor_filter (id : Nat) (q : Timer → Bool) (ts : List Timer) :
    timersFor id (ts.filter q) = (timersFor id ts).filter q := by
  simp only [timersFor, List.filter_filter]
  apply List.filter_congr
  intro x _
  exact Bool.and_comm _ _

theorem mem_of_mem_timersFor (id : Nat) (ts : List Timer) (tm : Timer)
    (h : tm ∈ ts) (ha : tm.action = TimerAction.removeToast id) : tm ∈ timersFor id ts := by
  simp [timersFor, h, ha]

theorem Inv_tick (s : Page) (h : Inv s) : Inv (tick s) := by
  unfold tick
  obtain ⟨f1, f2, f3, f4⟩ := foldl_runCallback_fields
    (s.timers.filter (fun t => decide (t.fireAt ≤ s.now + 1)))
    { s with now := s.now + 1,
             timers := s.timers.filter (fun t => !decide (t.fireAt ≤ s.now + 1)) }
  simp only at f1 f2 f3 f4
  refine ⟨?_, ?_, ?_, ?_, ?_⟩
  · intro t ht
    simp only [f2, f4] at ht ⊢
    exact h.created_lt t ht
  · intro tm htm id hid
    simp only [f2, f3] at htm ⊢
    exact h.timers_lt tm (List.mem_of_mem_filter htm) id hid
  · intro r hr
    simp only [f2]
    rcases removals_foldl_runCallback _ _ r hr with hr' | ⟨tm, h1, h2⟩
    · exact h.removals_lt r hr'
    · exact h.timers_lt tm (List.mem_of_mem_filter h1) _ h2
  · intro t ht hlt
    simp only [f1, f3, f4] at ht hlt ⊢
    obtain ⟨h1, h2, h3⟩ := h.live t ht (by omega)
    have hnd : ¬ t.createdAt + 1600 ≤ s.now + 1 := by omega
    refine ⟨?_, ?_, ?_⟩
    · rw [mem_foldl_runCallback]
      refine ⟨h1, ?_⟩
      intro tm htm ha
      have hm := mem_of_mem_timersFor t.id s.timers tm (List.mem_of_mem_filter htm) ha
      rw [h2, List.mem_singleton] at hm
      have hf := (List.mem_filter.1 htm).2
      rw [hm] at hf
      simp only [decide_eq_true_eq] at hf
      exact hnd hf
    · rw [timersFor_filter, h2]
      simp [hnd]
    · rw [removalsOf_foldl_runCallback, timersFor_filter, h2, h3]
      simp [hnd]
  · intro t ht hle
    simp only [f1, f3, f4] at ht hle ⊢
    by_cases hold : t.createdAt + 1600 ≤ s.now
    · obtain ⟨h1, h2, h3⟩ := h.gone t ht hold
      refine ⟨?_, ?_, ?_⟩
      · rw [mem_foldl_runCallback]
        exact fun hc => h1 hc.1
      · rw [timersFor_filter, h2]
        rfl
      · rw [removalsOf_foldl_runCallback, timersFor_filter, h2, h3]
        rfl
    · obtain ⟨_, h2, h3⟩ := h.live t ht (by omega)
      have hd : t.createdAt + 1600 ≤ s.now + 1 := hle
      have hmem : (⟨t.createdAt + 1600, TimerAction.removeToast t.id⟩ : Timer) ∈ s.timers := by
        have : (⟨t.createdAt + 1600, TimerAction.removeToast t.id⟩ : Timer)
            ∈ timersFor t.id s.timers := by rw [h2]; exact List.mem_singleton_self _
        exact List.mem_of_mem_filter this
      refine ⟨?_, ?_, ?_⟩
      · rw [mem_foldl_runCallback]
        rintro ⟨_, hc⟩
        exact hc ⟨t.createdAt + 1600, TimerAction.removeToast t.id⟩
          (List.mem_filter.2 ⟨hmem, by simpa using hd⟩) rfl
      · rw [timersFor_filter, h2]
        simp [hd]
      · rw [removalsOf_foldl_runCallback, timersFor_filter, h2, h3]
        simp [hd]
        omega

theorem Inv_run (evs : List Ev) (s : Page) (h : Inv s) : Inv (run evs s) := by
  induction evs generalizing s with
  | nil => exact h
  | cons ev evs ih =>
    show Inv (run evs (step s ev))
    apply ih
    cases ev with
    | tick => exact Inv_tick s h
    | callToast msg => exact Inv_toast msg s h
    | click e o => exact Inv_onClick e o s h

/-- C8, as stated, fails for a call made while the document has no body:
`appendChild` throws, no element is attached and no removal is scheduled. -/
theorem toast_counterexample :
    toast "hi" (Page.fresh 0 none false)
      = (Completion.thrown, { Page.fresh 0 none false with nextId := 1 }) := by
  decide

/-- C8, amended: every call of `toast(msg)` on a document that has a body
appends exactly one new element with text `msg` to the body and sets exactly
one timer, due 1600 ms after the call, that removes that same element. For
every sequence of ticks, toast calls and clicks on a fresh page, every toast
ever created is attached exactly while the clock is below its creation time
plus 1600, and the removals executed on it are none before that time and
exactly one from then on, at its creation time plus 1600: no other toast's
removal removes or delays it. -/
theorem toast_lifetime :
    (∀ (msg : String) (s : Page), s.hasBody = true →
      toast msg s
        = (Completion.normal,
            { s with
              nextId := s.nextId + 1,
              bodyToasts := s.bodyToasts ++ [⟨s.nextId, msg, toastStyle, s.now⟩],
              created := s.created ++ [⟨s.nextId, msg, toastStyle, s.now⟩],
              timers := s.timers ++ [⟨s.now + 1600, TimerAction.removeToast s.nextId⟩] })) ∧
    (∀ (now : Nat) (lu : Option String) (hb : Bool) (evs : List Ev) (t : ToastEl),
      t ∈ (run evs (Page.fresh now lu hb)).created →
        (t ∈ (run evs (Page.fresh now lu hb)).bodyToasts ↔
          (run evs (Page.fresh now lu hb)).now < t.createdAt + 1600) ∧
        removalsOf t.id (run evs (Page.fresh now lu hb)).removals
          = if (run evs (Page.fresh now lu hb)).now < t.createdAt + 1600 then []
            else [(t.id, t.createdAt + 1600)]) := by
  constructor
  · intro msg s hb
    simp [toast, hb, setTimeout]
  · intro now lu hb evs t ht
    have hinv := Inv_run evs _ (Inv_fresh now lu hb)
    by_cases hlt : (run evs (Page.fresh now lu hb)).now < t.createdAt + 1600
    · obtain ⟨h1, _, h3⟩ := hinv.live t ht hlt
      exact ⟨⟨fun _ => hlt, fun _ => h1⟩, by rw [h3, if_pos hlt]⟩
    · obtain ⟨h1, _, h3⟩ := hinv.gone t ht (by omega)
      exact ⟨⟨fun hm => absurd hm h1, fun hc => absurd hc hlt⟩, by rw [h3, if_neg hlt]⟩

/-- Witness of C8 (amended): two toasts made one millisecond apart; the first
one is still attached and not yet removed. -/
theorem toast_lifetime_witness :
    ((⟨0, "a", toastStyle, 5⟩ : ToastEl)
        ∈ (run [Ev.callToast "a", Ev.tick, Ev.callToast "b"] (Page.fresh 5 none true)).bodyToasts ↔
      (run [Ev.callToast "a", Ev.tick, Ev.callToast "b"] (Page.fresh 5 none true)).now
        < 5 + 1600) ∧
    removalsOf 0
        (run [Ev.callToast "a", Ev.tick, Ev.callToast "b"] (Page.fresh 5 none true)).removals
      = if (run [Ev.callToast "a", Ev.tick, Ev.callToast "b"] (Page.fresh 5 none true)).now
            < 5 + 1600 then []
        else [(0, 5 + 1600)] :=
  toast_lifetime.2 5 none true [Ev.callToast "a", Ev.tick, Ev.callToast "b"]
    ⟨0, "a", toastStyle, 5⟩ (by decide)

end Site
